import Mathlib

/- A verification development for the CBCL decoding pipeline of
seqbot (seqbot/demuxer/bcl2fu.py).  Nat stands in for the unsigned
byte and u32 values of the binary format; lists stand in for numpy
arrays and Python lists.  -/

/-- Model of the numpy expression `byte_array & 0b11` applied to one byte:
the low two bits, the basecall of an even-physical-index cluster. -/
def lowCode (b : Nat) : Nat := b % 4

/-- Model of the numpy expression `byte_array >> 4 & 0b11` applied to one
byte: bits 4 and 5, the basecall of an odd-physical-index cluster. -/
def highCode (b : Nat) : Nat := b / 16 % 4

/-- Model of the numpy slice `xs[::2]`. -/
def evens : List α → List α
  | [] => []
  | [a] => [a]
  | a :: _ :: rest => a :: evens rest

/-- Model of the numpy slice `xs[1::2]`. -/
def odds : List α → List α
  | [] => []
  | [_] => []
  | _ :: b :: rest => b :: odds rest

/-- Model of numpy boolean-mask indexing `xs[mask]` for a mask of the same
length as the indexed array (numpy rejects differing lengths). -/
def maskSelect (xs : List Nat) (mask : List Bool) : List Nat :=
  (xs.zip mask).filterMap (fun p => if p.2 then some p.1 else none)

/-- The basecall vector yielded by `get_byte_lists` in bcl2fu.py for one
decompressed tile block `byte_array` of one cycle file, `cf` being the
filter bit vector of the tile (consulted only when
`non_PF_clusters_excluded` is false):
`np.hstack((byte_array & 0b11, byte_array >> 4 & 0b11))` in the excluded
case, otherwise
`np.hstack(((byte_array & 0b11)[cf[::2]], (byte_array >> 4 & 0b11)[cf[1::2]]))`. -/
def tile_basecalls (non_PF_excluded : Bool) (byte_array : List Nat)
    (cf : List Bool) : List Nat :=
  if non_PF_excluded then
    byte_array.map lowCode ++ byte_array.map highCode
  else
    maskSelect (byte_array.map lowCode) (evens cf)
      ++ maskSelect (byte_array.map highCode) (odds cf)

/-- The character table of the expression `'ACGTN'[b]` in `read_tiles`. -/
def base_char (b : Nat) : Char := (['A', 'C', 'G', 'T', 'N']).getD b 'N'

/-- One row of the byte matrix rendered as a read string, as in
`''.join('ACGTN'[b] for b in byte_matrix[k,:])`. -/
def rowString (codes : List Nat) : String := String.mk (codes.map base_char)

/-- Outcome of reading and gzip-decompressing one tile block inside
`get_byte_lists`: successful decompression to bytes, an OSError raised by
the gzip module (corrupt block data), or any other exception such as the
EOFError a truncated gzip stream raises. -/
inductive GzipResult where
  | ok : List Nat → GzipResult
  | os_err : GzipResult
  | other_err : GzipResult
  deriving DecidableEq

/-- The per-tile input of one worker loop iteration: the filter bit
vector of the tile and the gzip outcome of the tile block in each
selected cycle file, in ascending cycle order. -/
structure TileInput where
  cf : List Bool
  cycles : List GzipResult
  deriving DecidableEq

/-- One step of the `get_byte_lists` generator in bcl2fu.py: a successful
decompression yields the basecall vector, `except OSError` absorbs a
decompression failure and yields None, and every other exception
propagates out of the generator (modelled as `Except.error`). -/
def get_byte_list (non_PF_excluded : Bool) (cf : List Bool) :
    GzipResult → Except Unit (Option (List Nat))
  | .ok bs => .ok (some (tile_basecalls non_PF_excluded bs cf))
  | .os_err => .ok none
  | .other_err => .error ()

/-- The whole `get_byte_lists` generator over the cycle files of one tile:
the list of per-cycle results, or a propagating exception if any cycle
raised one. -/
def get_byte_lists (non_PF_excluded : Bool) (cf : List Bool) :
    List GzipResult → Except Unit (List (Option (List Nat)))
  | [] => .ok []
  | r :: rs =>
    match get_byte_list non_PF_excluded cf r with
    | .error e => .error e
    | .ok c =>
      match get_byte_lists non_PF_excluded cf rs with
      | .error e => .error e
      | .ok cs => .ok (c :: cs)

/-- The cluster-by-cycle matrix built in `read_tiles`: the first decode
result is consumed unguarded (its length fixes the row count, and a None
there raises AttributeError on `byte_array.shape`; an empty cycle list
raises StopIteration), later columns overwrite the sentinel-4 fill only
when the decode succeeded, and a successful later decode of a different
length raises a numpy shape error.  Every raising path is `none`. -/
def read_tile_matrix (cols : List (Option (List Nat))) :
    Option (List (List Nat)) :=
  match cols with
  | [] => none
  | none :: _ => none
  | some v :: rest =>
    if rest.all (fun c => match c with
        | none => true
        | some w => w.length == v.length) then
      some ((List.range v.length).map (fun k =>
        cols.map (fun c => match c with
          | none => 4
          | some w => w.getD k 4)))
    else none

/-- The per-cluster read strings of one tile: the rows of the byte
matrix, each rendered through the `ACGTN` table. -/
def matrix_reads (m : List (List Nat)) : List String := m.map rowString

/-- Decoding and assembling one tile inside the worker loop of
`read_tiles`; any propagating exception aborts the surrounding task. -/
def run_tile (non_PF_excluded : Bool) (t : TileInput) :
    Except Unit (List String) :=
  match get_byte_lists non_PF_excluded t.cf t.cycles with
  | .error e => .error e
  | .ok cols =>
    match read_tile_matrix cols with
    | none => .error ()
    | some m => .ok (matrix_reads m)

/-- The tile loop of `read_tiles` for one worker task: the reads of all
tiles assigned to the task accumulate into one collection; an exception
while handling any tile is caught only by the handler that wraps the
whole task body, so the task is abandoned and writes no output
artifact. -/
def read_tiles_task (non_PF_excluded : Bool) :
    List TileInput → Except Unit (List String)
  | [] => .ok []
  | t :: ts =>
    match run_tile non_PF_excluded t with
    | .error e => .error e
    | .ok rs =>
      match read_tiles_task non_PF_excluded ts with
      | .error e => .error e
      | .ok rest => .ok (rs ++ rest)

/-- The Counter built in `read_tiles`: each distinct read string paired
with its number of occurrences. -/
def counter (reads : List String) : List (String × Nat) :=
  reads.dedup.map (fun s => (s, reads.count s))

/-- Sum of the counts written to the output artifact of one task. -/
def counts_sum (c : List (String × Nat)) : Nat := (c.map Prod.snd).sum

/-- Number of pass-filter clusters recorded by a filter bit vector. -/
def pf_count (cf : List Bool) : Nat := (cf.filter id).length

/-- The tile indices processed by worker `i` of `n`: the Python iterator
`range(i, n_tiles, nproc)` of `read_tiles`, as the increasing list of
indices below `m` lying a nonnegative multiple of `n` above `i`. -/
def strideIndices (i n m : Nat) : List Nat :=
  (List.range m).filter (fun t => i ≤ t && (t - i) % n == 0)

/-- The fields of the `cbcl_info` namedtuple parsed by
`read_cbcl_data`. -/
structure cbcl_info where
  version : Nat
  header_size : Nat
  bits_per_basecall : Nat
  bits_per_qscore : Nat
  number_of_bins : Nat
  bins : List (Nat × Nat)
  number_of_tile_records : Nat
  tile_offsets : List (Nat × Nat × Nat × Nat)
  non_PF_clusters_excluded : Bool
  deriving DecidableEq

/-- Little-endian u16 from the first two bytes of a list. -/
def le16 (l : List Nat) : Nat := l.getD 0 0 + 256 * l.getD 1 0

/-- Little-endian u32 from the first four bytes of a list. -/
def le32 (l : List Nat) : Nat :=
  l.getD 0 0 + 256 * l.getD 1 0 + 65536 * l.getD 2 0
    + 16777216 * l.getD 3 0

/-- Bytes grouped four at a time into little-endian u32 values, dropping
any incomplete trailing group (`np.fromfile` with dtype uint32). -/
def chunk32 : List Nat → List Nat
  | b0 :: b1 :: b2 :: b3 :: rest => le32 [b0, b1, b2, b3] :: chunk32 rest
  | _ => []

/-- Values grouped two at a time (a numpy reshape to two columns). -/
def pairUp : List Nat → List (Nat × Nat)
  | a :: b :: rest => (a, b) :: pairUp rest
  | _ => []

/-- Values grouped four at a time (a numpy reshape to four columns). -/
def quadUp : List Nat → List (Nat × Nat × Nat × Nat)
  | a :: b :: c :: d :: rest => (a, b, c, d) :: quadUp rest
  | _ => []

/-- The number of quality bins the header bytes declare: the u32 at
offset 8 (the `number_of_bins` field of struct.unpack of `<HIBBI`). -/
def declared_bins (bs : List Nat) : Nat := le32 ((bs.drop 8).take 4)

/-- The number of tile records the header bytes declare: the u32 read
immediately after the quality bins. -/
def declared_tiles (bs : List Nat) : Nat :=
  le32 ((bs.drop (12 + 8 * declared_bins bs)).take 4)

/-- The per-file body of `read_cbcl_data` in bcl2fu.py over the bytes of
one CBCL file: struct.unpack of `<HIBBI`, `number_of_bins` pairs of u32,
a u32 tile record count, that many rows of four u32, and one final byte.
Each read that runs past the end of the file raises (struct.error or a
numpy reshape error), modelled as `none`; otherwise the namedtuple is
returned with no further validation. -/
def read_cbcl_data (bs : List Nat) : Option cbcl_info :=
  if 12 ≤ bs.length then
    if 12 + 8 * declared_bins bs ≤ bs.length then
      if 4 ≤ (bs.drop (12 + 8 * declared_bins bs)).length then
        if 16 * declared_tiles bs
            ≤ ((bs.drop (12 + 8 * declared_bins bs)).drop 4).length then
          if 1 ≤ (((bs.drop (12 + 8 * declared_bins bs)).drop 4).drop
              (16 * declared_tiles bs)).length then
            some { version := le16 (bs.take 2)
                   header_size := le32 ((bs.drop 2).take 4)
                   bits_per_basecall := bs.getD 6 0
                   bits_per_qscore := bs.getD 7 0
                   number_of_bins := declared_bins bs
                   bins := pairUp (chunk32 ((bs.drop 12).take (8 * declared_bins bs)))
                   number_of_tile_records := declared_tiles bs
                   tile_offsets := quadUp (chunk32
                     (((bs.drop (12 + 8 * declared_bins bs)).drop 4).take
                       (16 * declared_tiles bs)))
                   non_PF_clusters_excluded :=
                     (((bs.drop (12 + 8 * declared_bins bs)).drop 4).drop
                       (16 * declared_tiles bs)).getD 0 0 != 0 }
          else none
        else none
      else none
    else none
  else none

/-- The byte count the declared header sizes require:
12 + 8 B + 4 + 16 T + 1. -/
def declared_size (bs : List Nat) : Nat :=
  12 + 8 * declared_bins bs + 4 + 16 * declared_tiles bs + 1

/-- The only cross-cycle-file consistency check performed by `main` in
bcl2fu.py for one group of cycle files:
`assert len({h.number_of_tile_records for h in headers}) == 1`. -/
def tile_count_check (headers : List cbcl_info) : Bool :=
  ((headers.map (fun h => h.number_of_tile_records)).dedup).length == 1

/-- Positions of the true bits of a mask, in increasing order. -/
def true_indices : List Bool → List Nat
  | [] => []
  | b :: ms =>
    if b then 0 :: (true_indices ms).map (· + 1)
    else (true_indices ms).map (· + 1)

/-- The physical cluster indices that survive the pass filter, in the
even-then-odd order the decoder produces: first the even physical indices
whose filter bit is set, then the odd ones. -/
def survivors (cf : List Bool) : List Nat :=
  ((true_indices (evens cf)).map (fun i => 2 * i))
    ++ ((true_indices (odds cf)).map (fun i => 2 * i + 1))

/-- The basecall of physical cluster `p` in a packed tile block: the low
nibble of byte `p / 2` when `p` is even, its high nibble when odd. -/
def nibble_at (bytes : List Nat) (p : Nat) : Nat :=
  if p % 2 = 0 then lowCode (bytes.getD (p / 2) 0)
  else highCode (bytes.getD (p / 2) 0)

example : tile_basecalls true [0x00, 0x01, 0x02, 0x03, 0x33] []
    = [0, 1, 2, 3, 3, 0, 0, 0, 0, 3] := by decide

example : tile_basecalls false [0x31] [true, true] = [1, 3] := by decide

example : survivors [true, false, true, true] = [0, 2, 3] := by decide

theorem maskSelect_cons (x : Nat) (xs : List Nat) (b : Bool) (ms : List Bool) :
    maskSelect (x :: xs) (b :: ms)
      = (if b then [x] else []) ++ maskSelect xs ms := by
  cases b <;> simp [maskSelect]

theorem maskSelect_eq_map (xs : List Nat) (m : List Bool)
    (h : xs.length = m.length) :
    maskSelect xs m = (true_indices m).map (fun i => xs.getD i 0) := by
  induction m generalizing xs with
  | nil =>
    have hx : xs = [] := List.length_eq_zero.mp h
    subst hx
    simp [maskSelect, true_indices]
  | cons b ms ih =>
    cases xs with
    | nil => simp at h
    | cons x xs =>
      have h' : xs.length = ms.length := by simpa using h
      cases b <;>
        simp [maskSelect_cons, true_indices, ih xs h', List.map_map,
          Function.comp_def, List.getD_cons_succ]

theorem evens_length : ∀ (l : List α), (evens l).length = (l.length + 1) / 2
  | [] => by simp [evens]
  | [_] => by simp [evens]
  | _ :: _ :: rest => by
    have ih := evens_length rest
    simp only [evens, List.length_cons, ih]
    omega

theorem odds_length : ∀ (l : List α), (odds l).length = l.length / 2
  | [] => by simp [odds]
  | [_] => by simp [odds]
  | _ :: _ :: rest => by
    have ih := odds_length rest
    simp only [odds, List.length_cons, ih]
    omega

theorem nibble_at_two_mul (bytes : List Nat) (i : Nat) :
    nibble_at bytes (2 * i) = lowCode (bytes.getD i 0) := by
  have h1 : (2 * i) % 2 = 0 := by omega
  have h2 : 2 * i / 2 = i := by omega
  simp [nibble_at, h1, h2]

theorem nibble_at_two_mul_add_one (bytes : List Nat) (i : Nat) :
    nibble_at bytes (2 * i + 1) = highCode (bytes.getD i 0) := by
  have h1 : (2 * i + 1) % 2 = 1 := by omega
  have h2 : (2 * i + 1) / 2 = i := by omega
  simp [nibble_at, h1, h2]

theorem getD_map_lowCode (bs : List Nat) (i : Nat) :
    (bs.map lowCode).getD i 0 = lowCode (bs.getD i 0) := by
  induction bs generalizing i with
  | nil => simp [lowCode]
  | cons b bs ih =>
    cases i with
    | zero => rfl
    | succ n =>
      simp only [List.map_cons, List.getD_cons_succ]
      exact ih n

theorem getD_map_highCode (bs : List Nat) (i : Nat) :
    (bs.map highCode).getD i 0 = highCode (bs.getD i 0) := by
  induction bs generalizing i with
  | nil => simp [highCode]
  | cons b bs ih =>
    cases i with
    | zero => rfl
    | succ n =>
      simp only [List.map_cons, List.getD_cons_succ]
      exact ih n

theorem tile_basecalls_false_eq (bs : List Nat) (cf : List Bool)
    (h : cf.length = 2 * bs.length) :
    tile_basecalls false bs cf = (survivors cf).map (nibble_at bs) := by
  have he : (bs.map lowCode).length = (evens cf).length := by
    rw [List.length_map, evens_length, h]; omega
  have ho : (bs.map highCode).length = (odds cf).length := by
    rw [List.length_map, odds_length, h]; omega
  simp only [tile_basecalls, Bool.false_eq_true, if_false]
  rw [maskSelect_eq_map _ _ he, maskSelect_eq_map _ _ ho]
  unfold survivors
  rw [List.map_append, List.map_map, List.map_map]
  congr 1
  · apply List.map_congr_left
    intro i _
    simp only [Function.comp_apply, nibble_at_two_mul]
    exact getD_map_lowCode bs i
  · apply List.map_congr_left
    intro i _
    simp only [Function.comp_apply, nibble_at_two_mul_add_one]
    exact getD_map_highCode bs i

theorem evens_replicate (n : Nat) (a : α) :
    evens (List.replicate (2 * n) a) = List.replicate n a := by
  induction n with
  | zero => simp [evens]
  | succ k ih =>
    have h2 : 2 * (k + 1) = 2 * k + 1 + 1 := by omega
    rw [h2, List.replicate_succ, List.replicate_succ]
    simp only [evens, ih]
    rw [List.replicate_succ]

theorem odds_replicate (n : Nat) (a : α) :
    odds (List.replicate (2 * n) a) = List.replicate n a := by
  induction n with
  | zero => simp [odds]
  | succ k ih =>
    have h2 : 2 * (k + 1) = 2 * k + 1 + 1 := by omega
    rw [h2, List.replicate_succ, List.replicate_succ]
    simp only [odds, ih]
    rw [List.replicate_succ]

theorem maskSelect_replicate_true (xs : List Nat) :
    maskSelect xs (List.replicate xs.length true) = xs := by
  induction xs with
  | nil => simp [maskSelect]
  | cons x xs ih =>
    simp only [List.length_cons, List.replicate_succ, maskSelect_cons, ih,
      if_true]
    simp

/-- Claim C1: for every tile of a CBCL cycle file decoded with
nonPfClustersExcluded = false and the filter bit vector of its lane, the
basecall vector produced by the tile block decoder is the concatenation
of the low-nibble basecall codes selected by the filter bits at even
physical indices, followed by the high-nibble basecall codes selected by
the filter bits at odd physical indices -- even-then-odd order, not
monotonic physical order.  Stated as: the vector is the image of the
fixed index list `survivors cf` (even surviving physical indices, then
odd ones) under the physical-nibble lookup, so every cycle file of the
same tile (same filter, block of the matching size) yields the identical
ordering and length, row for row. -/
theorem c1_decode_even_then_odd (byte_array : List Nat) (cf : List Bool)
    (h : cf.length = 2 * byte_array.length) :
    tile_basecalls false byte_array cf
      = (survivors cf).map (nibble_at byte_array) :=
  tile_basecalls_false_eq byte_array cf h

theorem c1_decode_even_then_odd_witness :
    ([true, false, true, true] : List Bool).length = 2 * ([0x31, 0x2] : List Nat).length
      ∧ tile_basecalls false [0x31, 0x2] [true, false, true, true]
          = (survivors [true, false, true, true]).map (nibble_at [0x31, 0x2]) :=
  ⟨by decide, c1_decode_even_then_odd [0x31, 0x2] [true, false, true, true] (by decide)⟩

/-- Claim C3 counterexample: for the worked example block
`[0x00, 0x01, 0x02, 0x03, 0x33]` decoded with
nonPfClustersExcluded = true, the high-nibble sequence is
`[0, 0, 0, 0, 3]` (A,A,A,A,T), not `[0, 1, 2, 3, 3]` (A,C,G,T,T) as the
claim states: the decoded vector renders as "ACGTTAAAAT", which differs
from the claimed "ACGTTACGTT". -/
theorem c3_worked_example_counterexample :
    rowString (tile_basecalls true [0x00, 0x01, 0x02, 0x03, 0x33] [])
        = "ACGTTAAAAT"
      ∧ rowString (tile_basecalls true [0x00, 0x01, 0x02, 0x03, 0x33] [])
          ≠ "ACGTTACGTT" := by
  constructor
  · rfl
  · decide

/-- Claim C3 as amended: for a tile with nonPfClustersExcluded = true
whose block decompresses to `[0x00, 0x01, 0x02, 0x03, 0x33]`, the decoder
yields the low-nibble basecall sequence `[0, 1, 2, 3, 3]` (A,C,G,T,T) and
the high-nibble basecall sequence `[0, 0, 0, 0, 3]` (A,A,A,A,T), so the
final even-then-odd vector maps to the string of basecalls
A,C,G,T,T,A,A,A,A,T. -/
theorem c3_worked_example :
    ([0x00, 0x01, 0x02, 0x03, 0x33] : List Nat).map lowCode = [0, 1, 2, 3, 3]
      ∧ ([0x00, 0x01, 0x02, 0x03, 0x33] : List Nat).map highCode = [0, 0, 0, 0, 3]
      ∧ tile_basecalls true [0x00, 0x01, 0x02, 0x03, 0x33] []
          = [0, 1, 2, 3, 3, 0, 0, 0, 0, 3]
      ∧ rowString (tile_basecalls true [0x00, 0x01, 0x02, 0x03, 0x33] [])
          = "ACGTTAAAAT" := by
  refine ⟨by decide, by decide, by decide, rfl⟩

/-- Claim C4 (code bug, evaluation at the failing input): for a tile with
nonPfClustersExcluded = true whose pass-filter cluster count is 1 (filter
`[true]`) and whose block decompresses to the single byte `0x31`, the
decoder emits the padding high nibble instead of discarding it: the
vector is `[1, 3]` of length 2 = 2 * uncompressedSize, not length 1 =
the PF cluster count as the claim requires. -/
theorem c4_padding_not_discarded :
    tile_basecalls true [0x31] [true] = [1, 3]
      ∧ (tile_basecalls true [0x31] [true]).length = 2
      ∧ pf_count [true] = 1 := by
  decide

/-- Claim C5: decoding any tile block content with
nonPfClustersExcluded = true yields the same basecall vector as decoding
the equivalent tile with nonPfClustersExcluded = false together with an
all-true filter map for that tile (the all-true vector covering the
two-clusters-per-byte block, the only length numpy mask indexing
accepts). -/
theorem c5_excluded_equals_all_true_filter (byte_array : List Nat) :
    tile_basecalls false byte_array
        (List.replicate (2 * byte_array.length) true)
      = tile_basecalls true byte_array
          (List.replicate (2 * byte_array.length) true) := by
  have h1 : maskSelect (byte_array.map lowCode)
      (List.replicate byte_array.length true) = byte_array.map lowCode := by
    have := maskSelect_replicate_true (byte_array.map lowCode)
    rwa [List.length_map] at this
  have h2 : maskSelect (byte_array.map highCode)
      (List.replicate byte_array.length true) = byte_array.map highCode := by
    have := maskSelect_replicate_true (byte_array.map highCode)
    rwa [List.length_map] at this
  simp [tile_basecalls, evens_replicate, odds_replicate, h1, h2]

/-- Claim C2 (code bug, evaluation at the failing input): a task whose
tile has a corrupt first cycle block (OSError absorbed into a None
yield) crashes on `byte_array.shape` and is abandoned with no output,
instead of filling the first column with sentinel N; the same corruption
in the second cycle position degrades only that column to N as the claim
describes. -/
theorem c2_first_cycle_corruption_aborts :
    run_tile false ⟨[true, true], [GzipResult.os_err, GzipResult.ok [0x01]]⟩
        = Except.error ()
      ∧ read_tiles_task false
          [⟨[true, true], [GzipResult.os_err, GzipResult.ok [0x01]]⟩]
          = Except.error ()
      ∧ run_tile false ⟨[true, true], [GzipResult.ok [0x01], GzipResult.os_err]⟩
          = Except.ok ["CN", "AN"] := by
  refine ⟨rfl, rfl, ?_⟩
  rfl

theorem dedup_length_one_iff {α : Type} [DecidableEq α] (l : List α) :
    l.dedup.length = 1 ↔ ∃ a, l ≠ [] ∧ ∀ x ∈ l, x = a := by
  induction l with
  | nil => simp
  | cons x l ih =>
    by_cases hx : x ∈ l
    · rw [List.dedup_cons_of_mem hx, ih]
      constructor
      · rintro ⟨a, hne, hall⟩
        refine ⟨a, by simp, ?_⟩
        intro y hy
        rcases List.mem_cons.mp hy with h | h
        · rw [h]; exact hall x hx
        · exact hall y h
      · rintro ⟨a, -, hall⟩
        exact ⟨a, List.ne_nil_of_mem hx,
          fun y hy => hall y (List.mem_cons_of_mem x hy)⟩
    · rw [List.dedup_cons_of_not_mem hx]
      simp only [List.length_cons]
      constructor
      · intro h1
        have h0 : l.dedup.length = 0 := by omega
        have hde : l.dedup = [] := List.length_eq_zero.mp h0
        have hl : l = [] := (List.dedup_eq_nil l).mp hde
        subst hl
        exact ⟨x, by simp, by simp⟩
      · rintro ⟨a, -, hall⟩
        have hxa : x = a := hall x (by simp)
        have hl : l = [] := by
          by_contra hne2
          obtain ⟨y, hy⟩ := List.exists_mem_of_ne_nil l hne2
          have hya : y = a := hall y (List.mem_cons_of_mem x hy)
          have : x = y := by rw [hxa, hya]
          exact hx (this ▸ hy)
        subst hl
        simp

/-- Claim C6 counterexample: two headers that agree on the number of
tile records but disagree on the per-tile cluster counts (and sizes)
pass the only consistency check `main` performs, so decoding proceeds
although the tile directories are not identical. -/
theorem c6_tile_directory_counterexample :
    tile_count_check
        [⟨1, 17, 2, 2, 0, [], 1, [(1100, 10, 5, 5)], true⟩,
         ⟨1, 17, 2, 2, 0, [], 1, [(1100, 20, 10, 10)], true⟩] = true
      ∧ (⟨1, 17, 2, 2, 0, [], 1, [(1100, 10, 5, 5)], true⟩ : cbcl_info).tile_offsets
          ≠ (⟨1, 17, 2, 2, 0, [], 1, [(1100, 20, 10, 10)], true⟩ : cbcl_info).tile_offsets := by
  decide

/-- Claim C6 as amended: for every group of cycle files, decoding
proceeds exactly when the group is nonempty and all its cycle files
report the same NUMBER of tile records; the per-tile cluster counts and
sizes of the tile directories are never compared. -/
theorem c6_consistency_check (headers : List cbcl_info) :
    tile_count_check headers = true
      ↔ ∃ n, headers ≠ [] ∧ ∀ h ∈ headers, h.number_of_tile_records = n := by
  unfold tile_count_check
  rw [beq_iff_eq, dedup_length_one_iff]
  constructor
  · rintro ⟨n, hne, hall⟩
    refine ⟨n, ?_, ?_⟩
    · intro h0
      subst h0
      simp at hne
    · intro h hmem
      exact hall _ (List.mem_map_of_mem _ hmem)
  · rintro ⟨n, hne, hall⟩
    refine ⟨n, by simpa using hne, ?_⟩
    intro x hx
    obtain ⟨h, hmem, rfl⟩ := List.mem_map.mp hx
    exact hall h hmem

/-- Claim C7 counterexample: a well-formed 17-byte CBCL header that
declares zero quality bins and zero tile records parses successfully and
returns an ordinary header record with `number_of_tile_records = 0`,
although the claim requires the parser to fail on zero tile records. -/
theorem c7_zero_tiles_counterexample :
    (read_cbcl_data [1, 0, 17, 0, 0, 0, 2, 2, 0, 0, 0, 0, 0, 0, 0, 0, 1]).isSome
        = true
      ∧ (read_cbcl_data [1, 0, 17, 0, 0, 0, 2, 2, 0, 0, 0, 0, 0, 0, 0, 0, 1]).map
          (fun h => h.number_of_tile_records) = some 0 := by
  decide

/-- Claim C7 as amended: the header parser returns a header exactly when
the input holds at least the declared byte count
12 + 8 * numberOfBins + 4 + 16 * numberOfTileRecords + 1, failing by a
raised exception on every shorter input; it never validates the
clusterCount, uncompressedSize or compressedSize fields (unsigned reads
cannot be negative) and it accepts zero tile records. -/
theorem c7_header_parser_totality (bs : List Nat) :
    (read_cbcl_data bs).isSome = true ↔ declared_size bs ≤ bs.length := by
  unfold read_cbcl_data declared_size
  simp only [List.length_drop]
  split_ifs with h1 h2 h3 h4 h5
  · constructor
    · intro _
      omega
    · intro _
      rfl
  all_goals
    constructor
    · intro h
      simp at h
    · intro h
      exfalso
      omega

theorem mem_strideIndices (i n m t : Nat) :
    t ∈ strideIndices i n m ↔ t < m ∧ i ≤ t ∧ (t - i) % n = 0 := by
  simp [strideIndices, List.mem_filter, List.mem_range, and_assoc]

/-- Claim C8: for every worker count n with 1 ≤ n and tile count m, the
strided partition of `read_tiles` in which worker i processes the tile
indices of `range(i, m, n)` covers every index below m exactly once:
each t below m is processed by the worker t mod n (which is below n),
only indices below m are ever processed, and any worker i below n that
processes t equals t mod n, so the worker sets are pairwise disjoint and
their union is exactly the indices below m. -/
theorem c8_strided_partition (n m t i : Nat) (hn : 1 ≤ n) :
    (t < m → t % n < n ∧ t ∈ strideIndices (t % n) n m)
      ∧ (t ∈ strideIndices i n m → t < m)
      ∧ (i < n → t ∈ strideIndices i n m → i = t % n) := by
  refine ⟨?_, ?_, ?_⟩
  · intro ht
    refine ⟨Nat.mod_lt t hn, ?_⟩
    rw [mem_strideIndices]
    refine ⟨ht, Nat.mod_le t n, ?_⟩
    have hd := Nat.div_add_mod t n
    have hsub : t - t % n = n * (t / n) := by omega
    rw [hsub]
    exact Nat.mul_mod_right n (t / n)
  · intro hmem
    exact ((mem_strideIndices i n m t).mp hmem).1
  · intro hi hmem
    rw [mem_strideIndices] at hmem
    obtain ⟨-, hle, hmod⟩ := hmem
    obtain ⟨k, hk⟩ := Nat.dvd_of_mod_eq_zero hmod
    have ht : t = i + n * k := by omega
    subst ht
    rw [Nat.add_mul_mod_self_left]
    exact (Nat.mod_eq_of_lt hi).symm

theorem c8_strided_partition_witness :
    1 ≤ 3
      ∧ ((7 < 10 → 7 % 3 < 3 ∧ 7 ∈ strideIndices (7 % 3) 3 10)
        ∧ (7 ∈ strideIndices 1 3 10 → 7 < 10)
        ∧ (1 < 3 → 7 ∈ strideIndices 1 3 10 → 1 = 7 % 3)) :=
  ⟨by decide, c8_strided_partition 3 10 7 1 (by decide)⟩

/-- Claim C9 (code bug, evaluation at the failing input): a count-mode
task holding one tile with nonPfClustersExcluded = true, PF cluster
count 1 (filter `[true]`) and one cycle block decompressing to the
single byte `0x31` completes successfully, yet the sum of the counts it
writes is 2 (the padding high nibble becomes a phantom read), not the
total PF cluster count 1 the claim requires. -/
theorem c9_counts_include_phantom_read :
    (read_tiles_task true [⟨[true], [GzipResult.ok [0x31]]⟩]).map
        (fun reads => counts_sum (counter reads)) = Except.ok 2
      ∧ ([(⟨[true], [GzipResult.ok [0x31]]⟩ : TileInput)].map
          (fun t => pf_count t.cf)).sum = 1 := by
  refine ⟨rfl, by decide⟩

theorem gbl_other_err (non_PF_excluded : Bool) (cf : List Bool)
    (cycles : List GzipResult) (hbad : GzipResult.other_err ∈ cycles) :
    get_byte_lists non_PF_excluded cf cycles = Except.error () := by
  induction cycles with
  | nil => cases hbad
  | cons r rs ih =>
    rcases List.mem_cons.mp hbad with h | h
    · rw [← h]
      simp [get_byte_lists, get_byte_list]
    · cases r with
      | ok bs => simp [get_byte_lists, get_byte_list, ih h]
      | os_err => simp [get_byte_lists, get_byte_list, ih h]
      | other_err => simp [get_byte_lists, get_byte_list]

theorem run_tile_other_err (non_PF_excluded : Bool) (t : TileInput)
    (hbad : GzipResult.other_err ∈ t.cycles) :
    run_tile non_PF_excluded t = Except.error () := by
  unfold run_tile
  rw [gbl_other_err non_PF_excluded t.cf t.cycles hbad]

theorem task_err_of_mem (non_PF_excluded : Bool) (tiles : List TileInput)
    (t : TileInput) (hmem : t ∈ tiles)
    (hbad : GzipResult.other_err ∈ t.cycles) :
    read_tiles_task non_PF_excluded tiles = Except.error () := by
  induction tiles with
  | nil => cases hmem
  | cons u us ih =>
    rcases List.mem_cons.mp hmem with h | h
    · rw [← h] at *
      unfold read_tiles_task
      rw [run_tile_other_err non_PF_excluded t hbad]
    · unfold read_tiles_task
      rw [ih h]
      cases hru : run_tile non_PF_excluded u with
      | error e => cases e; rfl
      | ok rs => rfl

/-- Claim C10: the tile block decoder absorbs only decompression
failures that raise an OSError, yielding the unavailable (None) result
for that tile and cycle; any other exception raised while reading or
decompressing a tile block, such as an EOFError from a truncated gzip
stream, propagates out of the decoder and aborts the entire worker task
(all its tiles produce nothing) instead of degrading only that column to
sentinel N. -/
theorem c10_only_oserror_absorbed (non_PF_excluded : Bool) (cf : List Bool)
    (tiles : List TileInput) (t : TileInput) (hmem : t ∈ tiles)
    (hbad : GzipResult.other_err ∈ t.cycles) :
    get_byte_list non_PF_excluded cf GzipResult.os_err = Except.ok none
      ∧ read_tiles_task non_PF_excluded tiles = Except.error () :=
  ⟨rfl, task_err_of_mem non_PF_excluded tiles t hmem hbad⟩

theorem c10_only_oserror_absorbed_witness :
    ((⟨[true], [GzipResult.other_err]⟩ : TileInput)
        ∈ ([⟨[true], [GzipResult.other_err]⟩] : List TileInput))
      ∧ (GzipResult.other_err
          ∈ (⟨[true], [GzipResult.other_err]⟩ : TileInput).cycles)
      ∧ (get_byte_list false [true] GzipResult.os_err = Except.ok none
        ∧ read_tiles_task false [⟨[true], [GzipResult.other_err]⟩]
            = Except.error ()) :=
  ⟨by decide, by decide,
    c10_only_oserror_absorbed false [true]
      [⟨[true], [GzipResult.other_err]⟩] ⟨[true], [GzipResult.other_err]⟩
      (by decide) (by decide)⟩

theorem counts_sum_counter (reads : List String) :
    counts_sum (counter reads) = reads.length := by
  unfold counts_sum counter
  rw [List.map_map]
  simpa [Function.comp_def] using List.sum_map_count_dedup_eq_length reads

theorem true_indices_length (m : List Bool) :
    (true_indices m).length = (m.filter id).length := by
  induction m with
  | nil => simp [true_indices]
  | cons b ms ih =>
    cases b <;> simp [true_indices, List.filter_cons, ih]

theorem filter_length_evens_odds : ∀ (l : List Bool),
    ((evens l).filter id).length + ((odds l).filter id).length
      = (l.filter id).length
  | [] => by simp [evens, odds]
  | [a] => by cases a <;> simp [evens, odds]
  | a :: b :: rest => by
    have ih := filter_length_evens_odds rest
    cases a <;> cases b <;>
      simp [evens, odds, List.filter_cons, ih] <;> omega

theorem tile_basecalls_false_length (bs : List Nat) (cf : List Bool)
    (h : cf.length = 2 * bs.length) :
    (tile_basecalls false bs cf).length = pf_count cf := by
  rw [tile_basecalls_false_eq bs cf h, List.length_map]
  unfold survivors pf_count
  rw [List.length_append, List.length_map, List.length_map,
    true_indices_length, true_indices_length]
  exact filter_length_evens_odds cf

theorem read_tile_matrix_corrupt_column (gs : List (List Nat)) (n j : Nat)
    (h0 : 0 < j) (hj : j < gs.length)
    (hlen : gs.all (fun g => g.length == n) = true) :
    read_tile_matrix ((gs.map some).set j none)
        = some ((List.range n).map (fun k =>
            (gs.map (fun g => g.getD k 4)).set j 4))
      ∧ read_tile_matrix (gs.map some)
          = some ((List.range n).map (fun k =>
              gs.map (fun g => g.getD k 4))) := by
  obtain ⟨g0, gs'⟩ : ∃ g0 gs', gs = g0 :: gs' := by
    cases gs with
    | nil => simp at hj
    | cons a l => exact ⟨a, l, rfl⟩
  obtain ⟨gs', rfl⟩ := gs'
  obtain ⟨j', rfl⟩ : ∃ j', j = j' + 1 := ⟨j - 1, by omega⟩
  have hg0 : g0.length = n := by
    have := (List.all_eq_true.mp hlen) g0 (by simp)
    simpa using this
  have hall : ∀ g ∈ gs', g.length = n := by
    intro g hg
    have := (List.all_eq_true.mp hlen) g (by simp [hg])
    simpa using this
  constructor
  · have hset : ((g0 :: gs').map some).set (j' + 1) none
        = some g0 :: ((gs'.map some).set j' none) := by
      simp
    rw [hset]
    have hcond : ((gs'.map some).set j' none).all (fun c => match c with
        | none => true
        | some w => w.length == g0.length) = true := by
      rw [List.all_eq_true]
      intro c hc
      rcases List.mem_or_eq_of_mem_set hc with h | h
      · obtain ⟨g, hg, rfl⟩ := List.mem_map.mp h
        simpa [hg0] using hall g hg
      · subst h
        rfl
    simp only [read_tile_matrix, hcond, if_true]
    rw [hg0]
    congr 1
    apply List.map_congr_left
    intro k _
    simp [List.map_set, List.map_map, Function.comp_def]
  · have hcond : (gs'.map some).all (fun c => match c with
        | none => true
        | some w => w.length == g0.length) = true := by
      rw [List.all_eq_true]
      intro c hc
      obtain ⟨g, hg, rfl⟩ := List.mem_map.mp hc
      simpa [hg0] using hall g hg
    simp only [List.map_cons, read_tile_matrix, hcond, if_true]
    rw [hg0]
    congr 1
    apply List.map_congr_left
    intro k _
    simp only [List.map_cons, List.map_map]
    congr 1
